import Mathlib

set_option maxRecDepth 8000

namespace TeenyJVM

/-! Shallow embedding of the TeenyJVM sources (src/src/jvm.c, src/src/read_class.c,
src/src/heap.c).  Machine integers are modelled as Int with explicit reduction
modulo 2^32 where the C code computes in 32 bits.  Undefined behavior and
assertion failure are modelled as Option.none at the operation level and as
the ub result at the interpreter level. -/

/-- Residue of an integer modulo 2^32, in [0, 2^32). -/
def u32 (v : Int) : Int := v.emod 4294967296

/-- Reinterpret a residue in [0, 2^32) as a signed two-complement 32-bit value. -/
def i32ofU (u : Int) : Int := if u < 2147483648 then u else u - 4294967296

/-- Normalize an integer to the signed 32-bit two-complement range, the result of
storing a computed value into an int32_t on a two-complement machine. -/
def i32 (v : Int) : Int := i32ofU (u32 v)

/-- Sign extension of one operand byte, as in the cast chain
(int32_t)(int8_t)(uint8_t) bytecode[pc + 1] of the bipush case in jvm.c. -/
def sign8 (b : Nat) : Int := if b < 128 then (b : Int) else (b : Int) - 256

/-- Two bytes combined big-endian and converted to int16_t, as in the sipush and
branch-offset computations of jvm.c. -/
def sign16 (n : Nat) : Int := if n < 32768 then (n : Int) else (n : Int) - 65536

/-! Opcode byte values.  The constants OFFSET_ICONST, OFFSET_ILOAD, OFFSET_ALOAD,
OFFSET_ASTORE and OFFSET_ISTORE are defined in jvm.c itself.  The individual
i_... opcode values come from the jvm_instruction_t enumeration of jvm.h.
Modelled from the spec: jvm.h is not under src/; per spec section 6 the input is
the standard JVM class file format, so the opcode bytes are the standard JVM
instruction encoding, with the contiguous families anchored by the OFFSET_...
constants in jvm.c. -/

def OFFSET_ICONST : Nat := 0x03
def OFFSET_ILOAD : Nat := 0x1a
def OFFSET_ALOAD : Nat := 0x2a
def OFFSET_ASTORE : Nat := 0x4b
def OFFSET_ISTORE : Nat := 0x3b

def i_nop : Nat := 0x00
def i_iconst_m1 : Nat := 0x02
def i_iconst_0 : Nat := 0x03
def i_iconst_1 : Nat := 0x04
def i_iconst_2 : Nat := 0x05
def i_iconst_3 : Nat := 0x06
def i_iconst_4 : Nat := 0x07
def i_iconst_5 : Nat := 0x08
def i_bipush : Nat := 0x10
def i_sipush : Nat := 0x11
def i_ldc : Nat := 0x12
def i_iload : Nat := 0x15
def i_aload : Nat := 0x19
def i_iload_0 : Nat := 0x1a
def i_iload_3 : Nat := 0x1d
def i_aload_0 : Nat := 0x2a
def i_aload_3 : Nat := 0x2d
def i_iaload : Nat := 0x2e
def i_istore : Nat := 0x36
def i_astore : Nat := 0x3a
def i_istore_0 : Nat := 0x3b
def i_istore_3 : Nat := 0x3e
def i_astore_0 : Nat := 0x4b
def i_astore_3 : Nat := 0x4e
def i_iastore : Nat := 0x4f
def i_dup : Nat := 0x59
def i_iadd : Nat := 0x60
def i_isub : Nat := 0x64
def i_imul : Nat := 0x68
def i_idiv : Nat := 0x6c
def i_irem : Nat := 0x70
def i_ineg : Nat := 0x74
def i_ishl : Nat := 0x78
def i_ishr : Nat := 0x7a
def i_iushr : Nat := 0x7c
def i_iand : Nat := 0x7e
def i_ior : Nat := 0x80
def i_ixor : Nat := 0x82
def i_iinc : Nat := 0x84
def i_ifeq : Nat := 0x99
def i_ifne : Nat := 0x9a
def i_iflt : Nat := 0x9b
def i_ifge : Nat := 0x9c
def i_ifgt : Nat := 0x9d
def i_ifle : Nat := 0x9e
def i_if_icmpeq : Nat := 0x9f
def i_if_icmpne : Nat := 0xa0
def i_if_icmplt : Nat := 0xa1
def i_if_icmpge : Nat := 0xa2
def i_if_icmpgt : Nat := 0xa3
def i_if_icmple : Nat := 0xa4
def i_goto : Nat := 0xa7
def i_ireturn : Nat := 0xac
def i_areturn : Nat := 0xb0
def i_return : Nat := 0xb1
def i_getstatic : Nat := 0xb2
def i_invokevirtual : Nat := 0xb6
def i_invokestatic : Nat := 0xb8
def i_newarray : Nat := 0xbc
def i_arraylength : Nat := 0xbe

attribute [simp] OFFSET_ICONST OFFSET_ILOAD OFFSET_ALOAD OFFSET_ASTORE
  OFFSET_ISTORE i_nop i_iconst_m1 i_iconst_0 i_iconst_1 i_iconst_2 i_iconst_3
  i_iconst_4 i_iconst_5 i_bipush i_sipush i_ldc i_iload i_aload i_iload_0
  i_iload_3 i_aload_0 i_aload_3 i_iaload i_istore i_astore i_istore_0
  i_istore_3 i_astore_0 i_astore_3 i_iastore i_dup i_iadd i_isub i_imul
  i_idiv i_irem i_ineg i_ishl i_ishr i_iushr i_iand i_ior i_ixor i_iinc
  i_ifeq i_ifne i_iflt i_ifge i_ifgt i_ifle i_if_icmpeq i_if_icmpne
  i_if_icmplt i_if_icmpge i_if_icmpgt i_if_icmple i_goto i_ireturn i_areturn
  i_return i_getstatic i_invokevirtual i_invokestatic i_newarray i_arraylength

/-- The constant-pool entry variants read by get_constant_pool in read_class.c
(tags CONSTANT_Utf8, CONSTANT_Integer, CONSTANT_Class, CONSTANT_Fieldref,
CONSTANT_Methodref, CONSTANT_NameAndType); the tagged union cp_info is modelled
as a sum type. -/
inductive cp_info where
  | utf8 (s : List Char)
  | integer (bytes : Int)
  | classRef (string_index : Nat)
  | fieldref (class_index name_and_type_index : Nat)
  | methodref (class_index name_and_type_index : Nat)
  | nameAndType (name_index descriptor_index : Nat)
deriving DecidableEq

/-- method_t of read_class.h as used by the .c sources: name, descriptor and
the fields of its Code attribute (max_stack, max_locals, bytecode). -/
structure method_t where
  name : List Char
  descriptor : List Char
  max_stack : Nat
  max_locals : Nat
  code : List Nat
deriving DecidableEq

/-- class_file_t as used by the sources: the constant pool and the method table. -/
structure class_file_t where
  constant_pool : List cp_info
  methods : List method_t
deriving DecidableEq

/-- get_constant from read_class.c: 1-indexed lookup; the assert on
0 < index <= pool size is modelled by returning none (assertion failure). -/
def get_constant (constant_pool : List cp_info) (index : Nat) : Option cp_info :=
  if 0 < index ∧ index ≤ constant_pool.length then constant_pool[index - 1]? else none

/-- get_method_name_and_type from read_class.c: resolve a Methodref entry to the
(name index, descriptor index) pair of its NameAndType entry; the tag asserts
are modelled by none. -/
def get_method_name_and_type (constant_pool : List cp_info) (index : Nat) :
    Option (Nat × Nat) :=
  match get_constant constant_pool index with
  | some (cp_info.methodref _ name_and_type_index) =>
    match get_constant constant_pool name_and_type_index with
    | some (cp_info.nameAndType name_index descriptor_index) =>
      some (name_index, descriptor_index)
    | _ => none
  | _ => none

/-- The counting loop of get_number_of_parameters in read_class.c: one parameter
per iteration, and a leading left bracket additionally skips the single
character that follows it. -/
def count_params_loop : List Char → Nat
  | [] => 0
  | ['['] => 1
  | '[' :: _ :: rest2 => 1 + count_params_loop rest2
  | _ :: rest => 1 + count_params_loop rest

/-- get_number_of_parameters from read_class.c: strchr finds the first left and
first right parenthesis; the loop runs over the characters strictly between
them (empty when the first right parenthesis is not after the first left one). -/
def get_number_of_parameters (method : method_t) : Nat :=
  count_params_loop
    (((method.descriptor.takeWhile (fun c => c != ')')).dropWhile
      (fun c => c != '(')).drop 1)

/-- find_method from read_class.c: linear scan of the method table matching
name and descriptor bytewise. -/
def find_method (name descriptor : List Char) (cls : class_file_t) :
    Option method_t :=
  cls.methods.find? (fun m => m.name == name && m.descriptor == descriptor)

/-- find_method_from_index from read_class.c: resolve the Methodref at the given
constant-pool index to Utf8 name and descriptor and look the method up. -/
def find_method_from_index (index : Nat) (cls : class_file_t) : Option method_t :=
  match get_method_name_and_type cls.constant_pool index with
  | none => none
  | some (name_index, descriptor_index) =>
    match get_constant cls.constant_pool name_index,
          get_constant cls.constant_pool descriptor_index with
    | some (cp_info.utf8 name), some (cp_info.utf8 descriptor) =>
      find_method name descriptor cls
    | _, _ => none

/-! The heap of heap.c: the ptr array is modelled as a list of integer arrays;
count is its length. -/

/-- heap_init from heap.c: empty pointer array, count zero. -/
def heap_init : List (List Int) := []

/-- heap_add from heap.c: append the array and return the previous count. -/
def heap_add (heap : List (List Int)) (arr : List Int) :
    List (List Int) × Int :=
  (heap ++ [arr], (heap.length : Int))

/-- heap_get from heap.c: heap->ptr[ref]; an out-of-range reference reads
unallocated memory, modelled as none. -/
def heap_get (heap : List (List Int)) (ref : Int) : Option (List Int) :=
  if 0 ≤ ref ∧ ref < (heap.length : Int) then heap[ref.toNat]? else none

/-! The interpreter of jvm.c.  A frame is the transient state of one activation
of execute: the operand stack (top of stack first; the C stack_pointer is
stack.length - 1), the local-variable array and the program counter. -/

/-- Transient per-activation interpreter state. -/
structure Frame where
  stack : List Int
  locals : List Int
  pc : Nat
deriving DecidableEq

/-- Outcome of dispatching one instruction of the while loop of execute. -/
inductive StepRes where
  | next (fr : Frame) (heap : List (List Int)) (out : List Int)
  | ret (v : Option Int) (heap : List (List Int)) (out : List Int)
  | ub
  | tout
deriving DecidableEq

/-- Outcome of one activation of execute: the optional_value_t return value,
the heap and the printed output; ub is undefined behavior or assertion
failure, tout is exhausted fuel. -/
inductive ExecRes where
  | done (v : Option Int) (heap : List (List Int)) (out : List Int)
  | ub
  | tout
deriving DecidableEq

/-- push from jvm.c: operand_stack[++stack_pointer] = value.  Writing at
stack_pointer = max_stack - 1 already full is out of bounds, modelled none. -/
def pushC (max_stack : Nat) (stack : List Int) (value : Int) :
    Option (List Int) :=
  if stack.length < max_stack then some (value :: stack) else none

/-- pop from jvm.c: operand_stack[stack_pointer--]; popping the empty stack
reads operand_stack[-1], modelled none. -/
def popC (stack : List Int) : Option (Int × List Int) :=
  match stack with
  | [] => none
  | v :: rest => some (v, rest)

/-- locals[index] read; an index at or past max_locals reads past the locals
array, modelled none. -/
def getLocal (locals : List Int) (index : Nat) : Option Int := locals[index]?

/-- locals[index] write; out of bounds modelled none. -/
def setLocal (locals : List Int) (index : Nat) (v : Int) : Option (List Int) :=
  if index < locals.length then some (locals.set index v) else none

/-- Bitwise and of two int32_t values. -/
def band32 (v1 v2 : Int) : Int :=
  i32ofU (((u32 v1).toNat &&& (u32 v2).toNat : Nat) : Int)

/-- Bitwise or of two int32_t values. -/
def bor32 (v1 v2 : Int) : Int :=
  i32ofU (((u32 v1).toNat ||| (u32 v2).toNat : Nat) : Int)

/-- Bitwise xor of two int32_t values. -/
def bxor32 (v1 v2 : Int) : Int :=
  i32ofU (((u32 v1).toNat ^^^ (u32 v2).toNat : Nat) : Int)

/-- perform_binary_operation from jvm.c.  Division and remainder by zero are
undefined (none); the other operations wrap modulo 2^32 as on the
two-complement target.  The default branch of the switch returns 0. -/
def perform_binary_operation (value1 value2 : Int) (instruction : Nat) :
    Option Int :=
  if instruction = i_iadd then some (i32 (value1 + value2))
  else if instruction = i_isub then some (i32 (value1 - value2))
  else if instruction = i_imul then some (i32 (value1 * value2))
  else if instruction = i_idiv then
    if value2 = 0 then none else some (i32 (Int.tdiv value1 value2))
  else if instruction = i_irem then
    if value2 = 0 then none else some (i32 (Int.tmod value1 value2))
  else if instruction = i_iand then some (band32 value1 value2)
  else if instruction = i_ior then some (bor32 value1 value2)
  else if instruction = i_ixor then some (bxor32 value1 value2)
  else some 0

/-- value << shift_amount on int32_t operands as in the ishl case of jvm.c.
C defines the shift only for amounts in [0, 32); other amounts are undefined
behavior (none).  In range, the result is stored into an int32_t, wrapping. -/
def ishl_result (value shift_amount : Int) : Option Int :=
  if 0 ≤ shift_amount ∧ shift_amount < 32 then
    some (i32 (value * 2 ^ shift_amount.toNat))
  else none

/-- value >> shift_amount on int32_t operands as in the ishr case of jvm.c.
Amounts outside [0, 32) are undefined behavior (none); in range the target
performs an arithmetic shift, which is floor division by a power of two. -/
def ishr_result (value shift_amount : Int) : Option Int :=
  if 0 ≤ shift_amount ∧ shift_amount < 32 then
    some (i32 (Int.fdiv value (2 ^ shift_amount.toNat)))
  else none

/-- ((uint32_t) value) >> shift_amount as in the iushr case of jvm.c: logical
shift on the unsigned reinterpretation, reinterpreted back as int32_t.
Amounts outside [0, 32) are undefined behavior (none). -/
def iushr_result (value shift_amount : Int) : Option Int :=
  if 0 ≤ shift_amount ∧ shift_amount < 32 then
    some (i32ofU (Int.ediv (u32 value) (2 ^ shift_amount.toNat)))
  else none

/-- The comparison against zero used by the single-pop branch family of
should_jump_based_on_instruction in jvm.c. -/
def cmpZero (instruction : Nat) (v : Int) : Bool :=
  if instruction = i_ifeq then decide (v = 0)
  else if instruction = i_ifne then decide (v ≠ 0)
  else if instruction = i_iflt then decide (v < 0)
  else if instruction = i_ifge then decide (0 ≤ v)
  else if instruction = i_ifgt then decide (0 < v)
  else decide (v ≤ 0)

/-- The two-value comparison used by the if_icmp family of
should_jump_based_on_instruction in jvm.c (value1 is the deeper element). -/
def cmpTwo (instruction : Nat) (value1 value2 : Int) : Bool :=
  if instruction = i_if_icmpeq then decide (value1 = value2)
  else if instruction = i_if_icmpne then decide (value1 ≠ value2)
  else if instruction = i_if_icmplt then decide (value1 < value2)
  else if instruction = i_if_icmpge then decide (value2 ≤ value1)
  else if instruction = i_if_icmpgt then decide (value2 < value1)
  else decide (value1 ≤ value2)

/-- should_jump_based_on_instruction from jvm.c: the zero-comparison family
pops one value, the if_icmp family pops two (value2 first), any other
instruction pops nothing and does not jump.  Pop underflow is none. -/
def should_jump_based_on_instruction (instruction : Nat) (stack : List Int) :
    Option (Bool × List Int) :=
  if i_ifeq ≤ instruction ∧ instruction ≤ i_ifle then
    match stack with
    | [] => none
    | v :: rest => some (cmpZero instruction v, rest)
  else if i_if_icmpeq ≤ instruction ∧ instruction ≤ i_if_icmple then
    match stack with
    | value2 :: value1 :: rest => some (cmpTwo instruction value1 value2, rest)
    | _ => none
  else some (false, stack)

/-- pc = pc + offset where pc is a u4 and offset an int16_t: the sum is
computed in uint32_t, wrapping modulo 2^32. -/
def branchTarget (pc : Nat) (offset : Int) : Nat :=
  (((pc : Int) + offset).emod 4294967296).toNat

/-- class->constant_pool[index - 1] as read by the ldc case of jvm.c: a direct
array access with no bounds assert.  index = 0 indexes before the array and an
index past the pool reads the sentinel or beyond; both are modelled none. -/
def constant_pool_at (constant_pool : List cp_info) (index : Nat) :
    Option cp_info :=
  if 0 < index then constant_pool[index - 1]? else none

/-- One slot of the callee VLA of invokestatic after
memset(method_locals, 0, called_method->code.max_locals) in jvm.c: the memset
zeroes max_locals BYTES, so slot i (bytes 4i..4i+3, little-endian) has its low
min 4 (max_locals - 4i) bytes zeroed and keeps its stack garbage elsewhere. -/
def memset_slot (max_locals i : Nat) (garbage : Int) : Int :=
  let k := min 4 (max_locals - 4 * i)
  i32ofU (Int.ediv (u32 garbage) (2 ^ (8 * k)) * 2 ^ (8 * k))

/-- The callee local array built by the invokestatic case of jvm.c: a VLA of
max_locals uninitialized slots (stack garbage given by the oracle), then the
byte-granular memset, then the popped arguments written into slots
num_params - 1 down to 0.  args is in pop order: its head is the top of the
caller operand stack and goes to slot num_params - 1. -/
def invokestatic_locals (max_locals num_params : Nat) (garbage : Nat → Int)
    (args : List Int) : List Int :=
  (List.range max_locals).map (fun i =>
    if i < num_params then args.getD (num_params - 1 - i) 0
    else memset_slot max_locals i (garbage i))

/-- new_array construction of the newarray case of jvm.c: a single slot holding
count when count <= 0, otherwise count followed by count zeroed slots. -/
def newarray_array (count : Int) : List Int :=
  if count ≤ 0 then [count] else count :: List.replicate count.toNat 0

/-- Wrap an optional continuation state as a step outcome (none is undefined
behavior). -/
def contOf (r : Option (Frame × List (List Int) × List Int)) : StepRes :=
  match r with
  | some (fr, heap, out) => StepRes.next fr heap out
  | none => StepRes.ub

/-- Dispatch of one fetched instruction byte, following the switch of execute
in jvm.c case by case.  execCall runs one recursive activation of execute for
invokestatic.  The switch has no default: an unrecognized byte leaves the
frame, heap and output untouched (the final else branch). -/
def stepOp (execCall : method_t → List Int → List (List Int) → List Int → ExecRes)
    (cls : class_file_t) (garbage : Nat → Int) (m : method_t) (instruction : Nat)
    (fr : Frame) (heap : List (List Int)) (out : List Int) : StepRes :=
  if instruction = i_bipush then
    contOf (do
      let b ← m.code[fr.pc + 1]?
      let s ← pushC m.max_stack fr.stack (sign8 b)
      pure (⟨s, fr.locals, fr.pc + 2⟩, heap, out))
  else if instruction = i_getstatic then
    StepRes.next ⟨fr.stack, fr.locals, fr.pc + 3⟩ heap out
  else if instruction = i_invokevirtual then
    contOf (do
      let (v, rest) ← popC fr.stack
      pure (⟨rest, fr.locals, fr.pc + 3⟩, heap, out ++ [v]))
  else if i_iconst_m1 ≤ instruction ∧ instruction ≤ i_iconst_5 then
    contOf (do
      let s ← pushC m.max_stack fr.stack ((instruction : Int) - (OFFSET_ICONST : Int))
      pure (⟨s, fr.locals, fr.pc + 1⟩, heap, out))
  else if instruction = i_iadd ∨ instruction = i_isub ∨ instruction = i_imul ∨
      instruction = i_idiv ∨ instruction = i_irem ∨ instruction = i_iand ∨
      instruction = i_ior ∨ instruction = i_ixor then
    contOf (do
      let (value2, s1) ← popC fr.stack
      let (value1, s2) ← popC s1
      let result ← perform_binary_operation value1 value2 instruction
      let s ← pushC m.max_stack s2 result
      pure (⟨s, fr.locals, fr.pc + 1⟩, heap, out))
  else if instruction = i_sipush then
    contOf (do
      let b1 ← m.code[fr.pc + 1]?
      let b2 ← m.code[fr.pc + 2]?
      let s ← pushC m.max_stack fr.stack (sign16 (b1 * 256 + b2))
      pure (⟨s, fr.locals, fr.pc + 3⟩, heap, out))
  else if instruction = i_ineg then
    contOf (do
      let (v, rest) ← popC fr.stack
      let s ← pushC m.max_stack rest (i32 (-v))
      pure (⟨s, fr.locals, fr.pc + 1⟩, heap, out))
  else if instruction = i_ishl then
    contOf (do
      let (shift_amount, s1) ← popC fr.stack
      let (value, s2) ← popC s1
      let r ← ishl_result value shift_amount
      let s ← pushC m.max_stack s2 r
      pure (⟨s, fr.locals, fr.pc + 1⟩, heap, out))
  else if instruction = i_ishr then
    contOf (do
      let (shift_amount, s1) ← popC fr.stack
      let (value, s2) ← popC s1
      let r ← ishr_result value shift_amount
      let s ← pushC m.max_stack s2 r
      pure (⟨s, fr.locals, fr.pc + 1⟩, heap, out))
  else if instruction = i_iushr then
    contOf (do
      let (shift_amount, s1) ← popC fr.stack
      let (value, s2) ← popC s1
      let r ← iushr_result value shift_amount
      let s ← pushC m.max_stack s2 r
      pure (⟨s, fr.locals, fr.pc + 1⟩, heap, out))
  else if instruction = i_iload then
    contOf (do
      let index ← m.code[fr.pc + 1]?
      let v ← getLocal fr.locals index
      let s ← pushC m.max_stack fr.stack v
      pure (⟨s, fr.locals, fr.pc + 2⟩, heap, out))
  else if instruction = i_istore then
    contOf (do
      let index ← m.code[fr.pc + 1]?
      let (v, rest) ← popC fr.stack
      let l ← setLocal fr.locals index v
      pure (⟨rest, l, fr.pc + 2⟩, heap, out))
  else if instruction = i_iinc then
    contOf (do
      let index ← m.code[fr.pc + 1]?
      let constant ← m.code[fr.pc + 2]?
      let v ← getLocal fr.locals index
      let l ← setLocal fr.locals index (i32 (v + sign8 constant))
      pure (⟨fr.stack, l, fr.pc + 3⟩, heap, out))
  else if i_iload_0 ≤ instruction ∧ instruction ≤ i_iload_3 then
    contOf (do
      let v ← getLocal fr.locals (instruction - OFFSET_ILOAD)
      let s ← pushC m.max_stack fr.stack v
      pure (⟨s, fr.locals, fr.pc + 1⟩, heap, out))
  else if i_istore_0 ≤ instruction ∧ instruction ≤ i_istore_3 then
    contOf (do
      let (v, rest) ← popC fr.stack
      let l ← setLocal fr.locals (instruction - OFFSET_ISTORE) v
      pure (⟨rest, l, fr.pc + 1⟩, heap, out))
  else if instruction = i_ldc then
    contOf (do
      let index ← m.code[fr.pc + 1]?
      let constant ← constant_pool_at cls.constant_pool index
      match constant with
      | cp_info.integer bytes =>
        let s ← pushC m.max_stack fr.stack bytes
        pure (⟨s, fr.locals, fr.pc + 2⟩, heap, out)
      | _ => pure (⟨fr.stack, fr.locals, fr.pc + 2⟩, heap, out))
  else if i_ifeq ≤ instruction ∧ instruction ≤ i_if_icmple then
    contOf (do
      let b1 ← m.code[fr.pc + 1]?
      let b2 ← m.code[fr.pc + 2]?
      let (shouldJump, rest) ← should_jump_based_on_instruction instruction fr.stack
      let offset := sign16 (b1 * 256 + b2)
      pure (⟨rest, fr.locals,
             if shouldJump then branchTarget fr.pc offset else fr.pc + 3⟩,
            heap, out))
  else if instruction = i_goto then
    contOf (do
      let b1 ← m.code[fr.pc + 1]?
      let b2 ← m.code[fr.pc + 2]?
      pure (⟨fr.stack, fr.locals, branchTarget fr.pc (sign16 (b1 * 256 + b2))⟩,
            heap, out))
  else if instruction = i_ireturn then
    match fr.stack with
    | [] => StepRes.ub
    | ret_val :: _ => StepRes.ret (some ret_val) heap out
  else if instruction = i_invokestatic then
    match m.code[fr.pc + 1]?, m.code[fr.pc + 2]? with
    | some b1, some b2 =>
      match find_method_from_index (b1 * 256 + b2) cls with
      | none => StepRes.ub
      | some called_method =>
        let num_params := get_number_of_parameters called_method
        if num_params ≤ fr.stack.length ∧ num_params ≤ called_method.max_locals then
          let method_locals := invokestatic_locals called_method.max_locals
            num_params garbage (fr.stack.take num_params)
          match execCall called_method method_locals heap out with
          | ExecRes.done v heap2 out2 =>
            match v with
            | some rv =>
              match pushC m.max_stack (fr.stack.drop num_params) rv with
              | some s => StepRes.next ⟨s, fr.locals, fr.pc + 3⟩ heap2 out2
              | none => StepRes.ub
            | none =>
              StepRes.next ⟨fr.stack.drop num_params, fr.locals, fr.pc + 3⟩ heap2 out2
          | ExecRes.ub => StepRes.ub
          | ExecRes.tout => StepRes.tout
        else StepRes.ub
    | _, _ => StepRes.ub
  else if instruction = i_nop then
    StepRes.next ⟨fr.stack, fr.locals, fr.pc + 1⟩ heap out
  else if instruction = i_dup then
    match fr.stack with
    | [] => StepRes.ub
    | v :: _ =>
      contOf (do
        let s ← pushC m.max_stack fr.stack v
        pure (⟨s, fr.locals, fr.pc + 1⟩, heap, out))
  else if instruction = i_newarray then
    contOf (do
      let (count, rest) ← popC fr.stack
      let (heap2, ref) := heap_add heap (newarray_array count)
      let s ← pushC m.max_stack rest ref
      pure (⟨s, fr.locals, fr.pc + 2⟩, heap2, out))
  else if instruction = i_arraylength then
    contOf (do
      let (ref, rest) ← popC fr.stack
      let array ← heap_get heap ref
      let count ← array[0]?
      let s ← pushC m.max_stack rest count
      pure (⟨s, fr.locals, fr.pc + 1⟩, heap, out))
  else if instruction = i_areturn then
    match fr.stack with
    | [] => StepRes.ub
    | ret_val :: _ => StepRes.ret (some ret_val) heap out
  else if instruction = i_iastore then
    contOf (do
      let (value, s1) ← popC fr.stack
      let (index, s2) ← popC s1
      let (ref, rest) ← popC s2
      let array ← heap_get heap ref
      if 0 ≤ index + 1 ∧ (index + 1).toNat < array.length then
        let heap2 := heap.set ref.toNat (array.set (index + 1).toNat value)
        pure (⟨rest, fr.locals, fr.pc + 1⟩, heap2, out)
      else none)
  else if instruction = i_iaload then
    contOf (do
      let (index, s1) ← popC fr.stack
      let (ref, rest) ← popC s1
      let array ← heap_get heap ref
      if 0 ≤ index + 1 then
        let v ← array[(index + 1).toNat]?
        let s ← pushC m.max_stack rest v
        pure (⟨s, fr.locals, fr.pc + 1⟩, heap, out)
      else none)
  else if instruction = i_aload then
    contOf (do
      let index ← m.code[fr.pc + 1]?
      let v ← getLocal fr.locals index
      let s ← pushC m.max_stack fr.stack v
      pure (⟨s, fr.locals, fr.pc + 2⟩, heap, out))
  else if instruction = i_astore then
    contOf (do
      let index ← m.code[fr.pc + 1]?
      let (v, rest) ← popC fr.stack
      let l ← setLocal fr.locals index v
      pure (⟨rest, l, fr.pc + 2⟩, heap, out))
  else if i_aload_0 ≤ instruction ∧ instruction ≤ i_aload_3 then
    contOf (do
      let v ← getLocal fr.locals (instruction - OFFSET_ALOAD)
      let s ← pushC m.max_stack fr.stack v
      pure (⟨s, fr.locals, fr.pc + 1⟩, heap, out))
  else if i_astore_0 ≤ instruction ∧ instruction ≤ i_astore_3 then
    contOf (do
      let (v, rest) ← popC fr.stack
      let l ← setLocal fr.locals (instruction - OFFSET_ASTORE) v
      pure (⟨rest, l, fr.pc + 1⟩, heap, out))
  else if instruction = i_return then
    StepRes.ret none heap out
  else
    StepRes.next fr heap out

/-- Fetch and dispatch of one iteration of the while loop of execute:
instruction = bytecode[pc]. -/
def stepInstr (execCall : method_t → List Int → List (List Int) → List Int → ExecRes)
    (cls : class_file_t) (garbage : Nat → Int) (m : method_t)
    (fr : Frame) (heap : List (List Int)) (out : List Int) : StepRes :=
  match m.code[fr.pc]? with
  | none => StepRes.ub
  | some instruction => stepOp execCall cls garbage m instruction fr heap out

/-- The while loop of execute, with fuel bounding both loop iterations and
recursion depth.  Leaving the loop (pc at or past code_length) returns the
void value; a recursive activation for invokestatic starts with an empty
operand stack and pc 0 on the callee locals. -/
def executeLoop :
    Nat → class_file_t → (Nat → Int) → method_t → Frame → List (List Int) →
    List Int → ExecRes
  | 0, _, _, _, _, _, _ => ExecRes.tout
  | Nat.succ fuel, cls, garbage, m, fr, heap, out =>
    if fr.pc < m.code.length then
      match stepInstr
          (fun m2 locals2 heap2 out2 =>
            executeLoop fuel cls garbage m2 ⟨[], locals2, 0⟩ heap2 out2)
          cls garbage m fr heap out with
      | StepRes.next fr2 heap2 out2 => executeLoop fuel cls garbage m fr2 heap2 out2
      | StepRes.ret v heap2 out2 => ExecRes.done v heap2 out2
      | StepRes.ub => ExecRes.ub
      | StepRes.tout => ExecRes.tout
    else ExecRes.done none heap out

/-- execute from jvm.c: run a method from pc 0 on an empty operand stack over
the given locals. -/
def execute (fuel : Nat) (cls : class_file_t) (garbage : Nat → Int)
    (m : method_t) (locals : List Int) (heap : List (List Int))
    (out : List Int) : ExecRes :=
  executeLoop fuel cls garbage m ⟨[], locals, 0⟩ heap out

/-- The opcode bytes carried by the cases of the switch of execute in jvm.c. -/
def recognizedOpcodes : List Nat :=
  [i_nop, i_iconst_m1, i_iconst_0, i_iconst_1, i_iconst_2, i_iconst_3,
   i_iconst_4, i_iconst_5, i_bipush, i_sipush, i_ldc, i_iload, i_aload,
   0x1a, 0x1b, 0x1c, 0x1d, 0x2a, 0x2b, 0x2c, 0x2d, i_iaload, i_istore,
   i_astore, 0x3b, 0x3c, 0x3d, 0x3e, 0x4b, 0x4c, 0x4d, 0x4e, i_iastore,
   i_dup, i_iadd, i_isub, i_imul, i_idiv, i_irem, i_ineg, i_ishl, i_ishr,
   i_iushr, i_iand, i_ior, i_ixor, i_iinc, i_ifeq, i_ifne, i_iflt, i_ifge,
   i_ifgt, i_ifle, i_if_icmpeq, i_if_icmpne, i_if_icmplt, i_if_icmpge,
   i_if_icmpgt, i_if_icmple, i_goto, i_ireturn, i_areturn, i_return,
   i_getstatic, i_invokevirtual, i_invokestatic, i_newarray, i_arraylength]

/-- Tokenization following the wording of claim C3: any number of leading left
brackets bind to the following component letter and the whole token is one
parameter, so the count is the number of non-bracket characters. -/
def spec_param_tokens : List Char → Nat
  | [] => 0
  | '[' :: rest => spec_param_tokens rest
  | _ :: rest => 1 + spec_param_tokens rest

/-- A parameter token as the source actually consumes it: either a single
component character that is not a left bracket, or a left bracket together
with the one character it skips. -/
def token_ok : List Char → Bool
  | [c] => c != '['
  | [c, _] => c == '['
  | _ => false

/-- Successive heap_add calls starting from a given heap: the final heap and
the list of returned references in call order. -/
def heap_add_all (heap : List (List Int)) : List (List Int) →
    List (List Int) × List Int
  | [] => (heap, [])
  | a :: as =>
    let r := heap_add heap a
    let rest := heap_add_all r.1 as
    (rest.1, r.2 :: rest.2)

/-- Descriptor of a static method taking np int parameters and returning int. -/
def c5Desc (np : Nat) : List Char := '(' :: List.replicate np 'I' ++ [')', 'I']

/-- A callee whose body is iload_k; ireturn, with np int parameters. -/
def c5Callee (np k : Nat) : method_t :=
  ⟨['f'], c5Desc np, 1, np, [OFFSET_ILOAD + k, i_ireturn]⟩

/-- A class whose constant-pool entry 1 is a Methodref (via NameAndType entry 2
and Utf8 entries 3 and 4) to the method f above. -/
def c5Class (np k : Nat) : class_file_t :=
  ⟨[cp_info.methodref 0 2, cp_info.nameAndType 3 4, cp_info.utf8 ['f'],
    cp_info.utf8 (c5Desc np)], [c5Callee np k]⟩

/-- Claim C1, evaluation at the failing input: for an invokestatic callee with
max_locals = 4 and num_params = 0, the memset of jvm.c zeroes only max_locals
= 4 BYTES, i.e. only slot 0 of the 4-slot VLA; with stack garbage 7 in every
slot the callee enters execute with locals [0, 7, 7, 7], so slot 1 (index at
or past num_params) is 7 and not 0 as the claim states. -/
theorem c1_invokestatic_locals_keep_garbage :
    invokestatic_locals 4 0 (fun _ => 7) [] = [0, 7, 7, 7] ∧
    (invokestatic_locals 4 0 (fun _ => 7) []).getD 1 0 ≠ 0 := by
  constructor
  · rfl
  · decide

/-- Claim C2, evaluation at the failing input: the source shifts by the raw
popped amount with no masking to the low 5 bits; a shift amount of 33 is
outside [0, 32) and therefore undefined behavior in C, so ishl of 1 by 33 is
not the defined value 2 that shifting by 1 produces, and the interpreter step
on stack [33, 1] is undefined behavior rather than a push of 2. -/
theorem c2_shift_amount_not_masked :
    ishl_result 1 33 = none ∧ ishl_result 1 1 = some 2 ∧
    ishr_result (-8) 33 = none ∧ ishr_result (-8) 1 = some (-4) ∧
    stepOp (fun _ _ _ _ => ExecRes.ub) ⟨[], []⟩ (fun _ => 0)
      ⟨['m'], [], 2, 0, [i_ishl]⟩ i_ishl ⟨[33, 1], [], 0⟩ [] [] = StepRes.ub := by
  refine ⟨by decide, by decide, by decide, by decide, rfl⟩

/-- Claim C8: bipush pushes its operand byte sign-extended (0xFF gives -1) and
sipush pushes its two operand bytes combined big-endian as a signed 16-bit
value (0x8000 gives -32768, 0x7FFF gives 32767), advancing pc by 2 and 3. -/
theorem c8_immediate_sign_extension :
    (∀ execCall cls garbage m fr heap out b,
        m.code[fr.pc]? = some i_bipush → m.code[fr.pc + 1]? = some b →
        fr.stack.length < m.max_stack →
        stepInstr execCall cls garbage m fr heap out =
          StepRes.next ⟨sign8 b :: fr.stack, fr.locals, fr.pc + 2⟩ heap out) ∧
    (∀ execCall cls garbage m fr heap out b1 b2,
        m.code[fr.pc]? = some i_sipush → m.code[fr.pc + 1]? = some b1 →
        m.code[fr.pc + 2]? = some b2 →
        fr.stack.length < m.max_stack →
        stepInstr execCall cls garbage m fr heap out =
          StepRes.next ⟨sign16 (b1 * 256 + b2) :: fr.stack, fr.locals, fr.pc + 3⟩
            heap out) ∧
    sign8 0xFF = -1 ∧ sign16 0x8000 = -32768 ∧ sign16 0x7FFF = 32767 := by
  refine ⟨?_, ?_, by decide, by decide, by decide⟩
  · intro execCall cls garbage m fr heap out b hI hb hlen
    simp only [stepInstr, hI]
    simp [stepOp, hb, pushC, hlen, contOf]
  · intro execCall cls garbage m fr heap out b1 b2 hI hb1 hb2 hlen
    simp only [stepInstr, hI]
    simp [stepOp, hb1, hb2, pushC, hlen, contOf]

/-- Witness for C8 at a concrete input: bipush 0xFF on an empty stack pushes
-1 and advances pc by 2. -/
theorem c8_witness :
    stepInstr (fun _ _ _ _ => ExecRes.ub) ⟨[], []⟩ (fun _ => 0)
      ⟨['m'], [], 1, 0, [i_bipush, 0xFF]⟩ ⟨[], [], 0⟩ [] [] =
      StepRes.next ⟨[-1], [], 2⟩ [] [] := by
  have h := c8_immediate_sign_extension.1 (fun _ _ _ _ => ExecRes.ub) ⟨[], []⟩
    (fun _ => 0) ⟨['m'], [], 1, 0, [i_bipush, 0xFF]⟩ ⟨[], [], 0⟩ [] [] 0xFF
    rfl rfl (by decide)
  simpa using h

/-- Claim C10: an ldc whose constant-pool entry at the operand index is not an
Integer pushes nothing and raises no error: the step succeeds with operand
stack, locals, heap and output unchanged and pc advanced by exactly 2. -/
theorem c10_ldc_non_integer_no_effect :
    ∀ execCall cls garbage m fr heap out index entry,
      m.code[fr.pc]? = some i_ldc → m.code[fr.pc + 1]? = some index →
      constant_pool_at cls.constant_pool index = some entry →
      (∀ bytes, entry ≠ cp_info.integer bytes) →
      stepInstr execCall cls garbage m fr heap out =
        StepRes.next ⟨fr.stack, fr.locals, fr.pc + 2⟩ heap out := by
  intro execCall cls garbage m fr heap out index entry hI hidx hentry hne
  simp only [stepInstr, hI]
  cases entry <;> first
    | exact absurd rfl (hne _)
    | simp [stepOp, hidx, hentry, contOf]

/-- Witness for C10 at a concrete input: ldc of pool entry 1, a Utf8 constant,
leaves everything unchanged except pc, which advances from 0 to 2. -/
theorem c10_witness :
    stepInstr (fun _ _ _ _ => ExecRes.ub) ⟨[cp_info.utf8 ['x']], []⟩ (fun _ => 0)
      ⟨['m'], [], 1, 0, [i_ldc, 1]⟩ ⟨[7], [3], 0⟩ [[9]] [5] =
      StepRes.next ⟨[7], [3], 2⟩ [[9]] [5] :=
  c10_ldc_non_integer_no_effect (fun _ _ _ _ => ExecRes.ub)
    ⟨[cp_info.utf8 ['x']], []⟩ (fun _ => 0) ⟨['m'], [], 1, 0, [i_ldc, 1]⟩
    ⟨[7], [3], 0⟩ [[9]] [5] 1 (cp_info.utf8 ['x']) rfl rfl rfl
    (fun _ h => cp_info.noConfusion h)

/-- Unpack a successful heap_get: the reference is nonnegative and in range. -/
theorem heap_get_eq_some (heap : List (List Int)) (r : Int) (arr : List Int)
    (h : heap_get heap r = some arr) :
    0 ≤ r ∧ r.toNat < heap.length ∧ heap[r.toNat]? = some arr := by
  unfold heap_get at h
  split at h
  · rename_i hc
    have h2 := hc.2
    exact ⟨hc.1, by omega, h⟩
  · exact absurd h (by simp)

/-- heap_get after overwriting the referenced array. -/
theorem heap_get_set_self (heap : List (List Int)) (r : Int) (arr2 : List Int)
    (h0 : 0 ≤ r) (hlt : r.toNat < heap.length) :
    heap_get (heap.set r.toNat arr2) r = some arr2 := by
  have hr : r < (heap.length : Int) := by omega
  simp [heap_get, h0, hr, List.getElem?_set_self hlt]

/-- heap_get of a freshly appended array at the reference heap_add returned. -/
theorem heap_get_last (heap : List (List Int)) (arr : List Int) :
    heap_get (heap ++ [arr]) (heap.length : Int) = some arr := by
  have hlt : (heap.length : Int) < ((heap ++ [arr]).length : Int) := by
    simp
  simp [heap_get, hlt, List.getElem?_concat_length]

/-- Claim C7: newarray pops a count n, allocates count plus one slots when
n is positive (slot 0 holding n and slots 1..n zero), a single slot holding n
when n is nonpositive, pushes the heap reference of the new array, and a
newarray of 0 followed by arraylength pushes 0. -/
theorem c7_newarray_allocation :
    ∀ execCall cls garbage m fr heap out (n : Int) rest,
      m.code[fr.pc]? = some i_newarray → fr.stack = n :: rest →
      rest.length < m.max_stack →
      (stepInstr execCall cls garbage m fr heap out =
        StepRes.next ⟨(heap.length : Int) :: rest, fr.locals, fr.pc + 2⟩
          (heap ++ [newarray_array n]) out) ∧
      (0 < n → newarray_array n = n :: List.replicate n.toNat 0 ∧
        (newarray_array n).length = n.toNat + 1) ∧
      (n ≤ 0 → newarray_array n = [n]) ∧
      (n = 0 → ∀ fr2 rest2 out2,
        m.code[fr2.pc]? = some i_arraylength →
        fr2.stack = (heap.length : Int) :: rest2 → rest2.length < m.max_stack →
        stepInstr execCall cls garbage m fr2 (heap ++ [newarray_array n]) out2 =
          StepRes.next ⟨0 :: rest2, fr2.locals, fr2.pc + 1⟩
            (heap ++ [newarray_array n]) out2) := by
  intro execCall cls garbage m fr heap out n rest hI hs hlen
  refine ⟨?_, ?_, ?_, ?_⟩
  · simp only [stepInstr, hI]
    simp [stepOp, hs, popC, heap_add, pushC, hlen, contOf]
  · intro hn
    have hne : ¬ n ≤ 0 := not_le.mpr hn
    constructor
    · simp [newarray_array, hne]
    · simp [newarray_array, hne]
  · intro hn
    simp [newarray_array, hn]
  · intro hn fr2 rest2 out2 hI2 hs2 hlen2
    subst hn
    simp only [stepInstr, hI2]
    have hget : heap_get (heap ++ [[0]]) (heap.length : Int) = some [0] := by
      simpa [newarray_array] using heap_get_last heap (newarray_array 0)
    simp [stepOp, hs2, popC, hget, newarray_array, pushC, hlen2, contOf]

/-- Witness for C7 at a concrete input: newarray with popped count 3 on an
empty heap allocates [3, 0, 0, 0] and pushes reference 0. -/
theorem c7_witness :
    stepInstr (fun _ _ _ _ => ExecRes.ub) ⟨[], []⟩ (fun _ => 0)
      ⟨['m'], [], 2, 0, [i_newarray, 10]⟩ ⟨[3], [], 0⟩ [] [] =
      StepRes.next ⟨[0], [], 2⟩ [[3, 0, 0, 0]] [] := by
  have h := (c7_newarray_allocation (fun _ _ _ _ => ExecRes.ub) ⟨[], []⟩
    (fun _ => 0) ⟨['m'], [], 2, 0, [i_newarray, 10]⟩ ⟨[3], [], 0⟩ [] [] 3 []
    rfl rfl (by decide)).1
  simpa [newarray_array] using h

/-- Claim C6: the plus-one array layout.  With a heap array of length c + 1
whose slot 0 holds the count c: iastore at index i writes slot i + 1, a
following iaload at index i reads slot i + 1 and pushes the stored value, and
arraylength on the updated array still pushes the count from slot 0. -/
theorem c6_array_layout_roundtrip :
    ∀ execCall cls garbage m heap out (r : Int) arr (c : Nat) (i : Nat) (v : Int)
      stack1 locals1 (pc1 : Nat),
      heap_get heap r = some arr →
      arr[0]? = some (c : Int) → arr.length = c + 1 → i < c →
      m.code[pc1]? = some i_iastore →
      (stepInstr execCall cls garbage m ⟨v :: (i : Int) :: r :: stack1, locals1, pc1⟩
          heap out =
        StepRes.next ⟨stack1, locals1, pc1 + 1⟩
          (heap.set r.toNat (arr.set (i + 1) v)) out) ∧
      (∀ stack2 locals2 (pc2 : Nat) out2,
        m.code[pc2]? = some i_iaload → stack2.length < m.max_stack →
        stepInstr execCall cls garbage m ⟨(i : Int) :: r :: stack2, locals2, pc2⟩
            (heap.set r.toNat (arr.set (i + 1) v)) out2 =
          StepRes.next ⟨v :: stack2, locals2, pc2 + 1⟩
            (heap.set r.toNat (arr.set (i + 1) v)) out2) ∧
      (∀ stack3 locals3 (pc3 : Nat) out3,
        m.code[pc3]? = some i_arraylength → stack3.length < m.max_stack →
        stepInstr execCall cls garbage m ⟨r :: stack3, locals3, pc3⟩
            (heap.set r.toNat (arr.set (i + 1) v)) out3 =
          StepRes.next ⟨(c : Int) :: stack3, locals3, pc3 + 1⟩
            (heap.set r.toNat (arr.set (i + 1) v)) out3) := by
  intro execCall cls garbage m heap out r arr c i v stack1 locals1 pc1
    hget h0 hlenarr hic hI1
  obtain ⟨hr0, hrlt, _⟩ := heap_get_eq_some heap r arr hget
  have htoNat : ((i : Int) + 1).toNat = i + 1 := by omega
  have hidx : i + 1 < arr.length := by omega
  have hpos : (0 : Int) ≤ (i : Int) + 1 := by positivity
  refine ⟨?_, ?_, ?_⟩
  · simp only [stepInstr, hI1]
    simp [stepOp, popC, hget, hpos, hidx, htoNat, contOf]
  · intro stack2 locals2 pc2 out2 hI2 hlen2
    simp only [stepInstr, hI2]
    have hget2 := heap_get_set_self heap r (arr.set (i + 1) v) hr0 hrlt
    have hread : (arr.set (i + 1) v)[i + 1]? = some v :=
      List.getElem?_set_self hidx
    simp [stepOp, popC, hget2, hread, hpos, htoNat, pushC, hlen2, contOf]
  · intro stack3 locals3 pc3 out3 hI3 hlen3
    simp only [stepInstr, hI3]
    have hget2 := heap_get_set_self heap r (arr.set (i + 1) v) hr0 hrlt
    have hread : (arr.set (i + 1) v)[0]? = some (c : Int) := by
      rw [List.getElem?_set_ne (by omega)]
      exact h0
    simp [stepOp, popC, hget2, hread, pushC, hlen3, contOf]

/-- Witness for C6 at a concrete input: on the one-array heap [[2, 5, 6]]
(count 2), iastore of 9 at index 1 yields [[2, 5, 9]], iaload at index 1
pushes 9, and arraylength still pushes 2. -/
theorem c6_witness :
    (stepInstr (fun _ _ _ _ => ExecRes.ub) ⟨[], []⟩ (fun _ => 0)
        ⟨['m'], [], 3, 0, [i_iastore, i_iaload, i_arraylength]⟩
        ⟨[9, 1, 0], [], 0⟩ [[2, 5, 6]] [] =
      StepRes.next ⟨[], [], 1⟩ [[2, 5, 9]] []) ∧
    (stepInstr (fun _ _ _ _ => ExecRes.ub) ⟨[], []⟩ (fun _ => 0)
        ⟨['m'], [], 3, 0, [i_iastore, i_iaload, i_arraylength]⟩
        ⟨[1, 0], [], 1⟩ [[2, 5, 9]] [] =
      StepRes.next ⟨[9], [], 2⟩ [[2, 5, 9]] []) ∧
    (stepInstr (fun _ _ _ _ => ExecRes.ub) ⟨[], []⟩ (fun _ => 0)
        ⟨['m'], [], 3, 0, [i_iastore, i_iaload, i_arraylength]⟩
        ⟨[0], [], 2⟩ [[2, 5, 9]] [] =
      StepRes.next ⟨[2], [], 3⟩ [[2, 5, 9]] []) := by
  have h := c6_array_layout_roundtrip (fun _ _ _ _ => ExecRes.ub) ⟨[], []⟩
    (fun _ => 0) ⟨['m'], [], 3, 0, [i_iastore, i_iaload, i_arraylength]⟩
    [[2, 5, 6]] [] 0 [2, 5, 6] 2 1 9 [] [] 0 (by decide) (by decide) (by decide)
    (by decide) rfl
  exact ⟨h.1, h.2.1 [] [] 1 [] rfl (by decide), h.2.2 [] [] 2 [] rfl (by decide)⟩

/-- Closed form of heap_add_all: it appends the arrays and returns the
references heap.length, heap.length + 1, ... in call order. -/
theorem heap_add_all_spec (arrs : List (List Int)) :
    ∀ heap, heap_add_all heap arrs =
      (heap ++ arrs,
       (List.range arrs.length).map (fun n => ((heap.length + n : Nat) : Int))) := by
  induction arrs with
  | nil => intro heap; simp [heap_add_all]
  | cons a as ih =>
    intro heap
    simp only [heap_add_all, heap_add, ih]
    refine Prod.ext ?_ ?_
    · simp
    · simp only [List.length_cons, List.range_succ_eq_map, List.map_cons,
        List.map_map]
      refine congrArg₂ _ (by simp) ?_
      refine List.map_congr_left ?_
      intro n _
      simp [Function.comp]
      omega

/-- Claim C9: heap references are monotone and never reused.  Successive
heap_add calls starting from heap_init return the strictly increasing
references 0, 1, 2, ..., and after any number k of adds, heap_get still
returns the array stored by the r-th add for every r < k. -/
theorem c9_heap_monotone :
    ∀ (arrs : List (List Int)),
      (heap_add_all heap_init arrs).2 =
        List.map (fun n : Nat => (n : Int)) (List.range arrs.length) ∧
      ∀ (k r : Nat), k ≤ arrs.length → r < k →
        heap_get (heap_add_all heap_init (arrs.take k)).1 ((r : Nat) : Int) =
          arrs[r]? := by
  intro arrs
  constructor
  · rw [heap_add_all_spec]
    refine List.map_congr_left ?_
    intro n _
    simp [heap_init]
  · intro k r hk hr
    rw [heap_add_all_spec]
    have hlen : ((List.take k arrs).length : Int) = (k : Int) := by
      simp [List.length_take]
      omega
    have hrk : ((r : Nat) : Int) < ((heap_init ++ List.take k arrs).length : Int) := by
      simp [heap_init, List.length_take]
      omega
    simp [heap_get, heap_init, hrk, List.getElem?_take, hr]

/-- Witness for C9 at a concrete input: adding [1] then [2, 3] to the empty
heap returns references [0, 1], and after both adds reference 0 still reads
the first array. -/
theorem c9_witness :
    (heap_add_all heap_init [[1], [2, 3]]).2 = [0, 1] ∧
    heap_get (heap_add_all heap_init ([[1], [2, 3]].take 2)).1 ((0 : Nat) : Int) =
      some [1] := by
  have h := c9_heap_monotone [[1], [2, 3]]
  exact ⟨by simpa using h.1, by simpa using h.2 2 0 (by decide) (by decide)⟩

/-- The takeWhile of the parameter region: it stops exactly at the first right
parenthesis when the region itself contains none. -/
theorem takeWhile_no_rparen (ps : List Char) (h : ')' ∉ ps) (tail : List Char) :
    (ps ++ ')' :: tail).takeWhile (fun c => c != ')') = ps := by
  induction ps with
  | nil => simp
  | cons c cs ih =>
    have hc : c ≠ ')' := by
      intro e
      exact h (by simp [e])
    have hcs : ')' ∉ cs := fun e => h (List.mem_cons_of_mem _ e)
    simp [List.takeWhile_cons, hc, ih hcs]

/-- Region extraction of get_number_of_parameters on a well-parenthesized
descriptor: the loop runs exactly over the characters between the parens. -/
theorem get_params_region (name ps ret : List Char) (ms ml : Nat)
    (code : List Nat) (h : ')' ∉ ps) :
    get_number_of_parameters ⟨name, '(' :: ps ++ ')' :: ret, ms, ml, code⟩ =
      count_params_loop ps := by
  unfold get_number_of_parameters
  have h1 : (('(' :: ps ++ ')' :: ret).takeWhile (fun c => c != ')')) =
      '(' :: ps := by
    rw [List.cons_append, List.takeWhile_cons]
    simp [takeWhile_no_rparen ps h ret]
  rw [h1]
  simp [List.dropWhile_cons]

/-- The counting loop on a concatenation of tokens, each a single non-bracket
character or a bracket plus the one character it skips, counts one per token. -/
theorem count_params_loop_join (tokens : List (List Char))
    (h : ∀ t ∈ tokens, token_ok t = true) :
    count_params_loop tokens.flatten = tokens.length := by
  induction tokens with
  | nil => rfl
  | cons t ts ih =>
    have ht := h t (by simp)
    have hts : ∀ u ∈ ts, token_ok u = true := fun u hu => h u (by simp [hu])
    rcases t with _ | ⟨c1, t2⟩
    · simp [token_ok] at ht
    rcases t2 with _ | ⟨c2, t3⟩
    · have hc : c1 ≠ '[' := by simpa [token_ok] using ht
      have hstep : count_params_loop (c1 :: ts.flatten) =
          1 + count_params_loop ts.flatten := by
        cases hfl : ts.flatten with
        | nil => simp [count_params_loop, hc]
        | cons x xs => simp [count_params_loop, hc]
      simp [hstep, ih hts]
      omega
    rcases t3 with _ | ⟨c3, t4⟩
    · have hc : c1 = '[' := by simpa [token_ok] using ht
      subst hc
      simp [count_params_loop, ih hts]
      omega
    · simp [token_ok] at ht

/-- Claim C3 counterexample: on the descriptor ([[I)I the source counts 2
parameters (each left bracket skips exactly one following character), while
the tokenization of the claim (any number of bracket prefixes bind to one
component letter) counts 1. -/
theorem c3_counterexample :
    get_number_of_parameters ⟨['f'], ['(', '[', '[', 'I', ')', 'I'], 1, 1, []⟩ = 2 ∧
    spec_param_tokens ['[', '[', 'I'] = 1 := by
  constructor <;> rfl

/-- Claim C3 as amended: get_number_of_parameters returns the number of
parameter tokens, where each token is either one non-bracket component
character or a left bracket together with exactly the one character it
consumes. -/
theorem c3_param_count_amended :
    ∀ (tokens : List (List Char)) (name ret : List Char) (ms ml : Nat)
      (code : List Nat),
      (∀ t ∈ tokens, token_ok t = true) → ')' ∉ tokens.flatten →
      get_number_of_parameters
          ⟨name, '(' :: tokens.flatten ++ ')' :: ret, ms, ml, code⟩ =
        tokens.length :=
  fun tokens name ret ms ml code h hnp =>
    (get_params_region name tokens.flatten ret ms ml code hnp).trans
      (count_params_loop_join tokens h)

/-- Witness for C3 at a concrete input: the descriptor (I[I)V has two
parameter tokens, I and [I. -/
theorem c3_witness :
    get_number_of_parameters ⟨['f'], ['(', 'I', '[', 'I', ')', 'V'], 1, 1, []⟩ = 2 := by
  have h := c3_param_count_amended [['I'], ['[', 'I']] ['f'] ['V'] 1 1 []
    (by decide) (by decide)
  simpa using h

/-- An instruction byte outside the recognized opcode set falls through the
whole dispatch chain and leaves frame, heap and output untouched. -/
theorem stepOp_unrecognized
    (execCall : method_t → List Int → List (List Int) → List Int → ExecRes)
    (cls : class_file_t) (garbage : Nat → Int) (m : method_t) (b : Nat)
    (fr : Frame) (heap : List (List Int)) (out : List Int)
    (hb : b < 256) (hmem : b ∉ recognizedOpcodes) :
    stepOp execCall cls garbage m b fr heap out = StepRes.next fr heap out := by
  interval_cases b <;> first
    | exact absurd (by decide) hmem
    | rfl

/-- Claim C4: fetching an opcode that is not in the recognized instruction set
changes no interpreter state (operand stack, locals, heap, output and pc are
exactly as before), so the loop re-fetches the same opcode forever and the
execution never terminates for any amount of fuel. -/
theorem c4_unknown_opcode_no_state_change :
    ∀ execCall cls garbage m fr heap out (b : Nat),
      m.code[fr.pc]? = some b → b < 256 → b ∉ recognizedOpcodes →
      stepInstr execCall cls garbage m fr heap out = StepRes.next fr heap out ∧
      ∀ fuel, executeLoop fuel cls garbage m fr heap out = ExecRes.tout := by
  intro execCall cls garbage m fr heap out b hI hb hmem
  have hstep : ∀ (ec : method_t → List Int → List (List Int) → List Int → ExecRes),
      stepInstr ec cls garbage m fr heap out = StepRes.next fr heap out := by
    intro ec
    simp only [stepInstr, hI]
    exact stepOp_unrecognized ec cls garbage m b fr heap out hb hmem
  have hpc : fr.pc < m.code.length := by
    by_contra hc
    push_neg at hc
    rw [List.getElem?_eq_none hc] at hI
    cases hI
  refine ⟨hstep execCall, ?_⟩
  intro fuel
  induction fuel with
  | zero => rfl
  | succ n ih =>
    simp only [executeLoop, if_pos hpc]
    rw [hstep]
    exact ih

/-- Witness for C4 at a concrete input: opcode 0xca at pc 0 leaves the state
unchanged and the loop times out for fuel 5. -/
theorem c4_witness :
    (stepInstr (fun _ _ _ _ => ExecRes.ub) ⟨[], []⟩ (fun _ => 0)
        ⟨['m'], [], 1, 0, [0xca]⟩ ⟨[], [], 0⟩ [] [] =
      StepRes.next ⟨[], [], 0⟩ [] []) ∧
    executeLoop 5 ⟨[], []⟩ (fun _ => 0) ⟨['m'], [], 1, 0, [0xca]⟩
        ⟨[], [], 0⟩ [] [] = ExecRes.tout := by
  have h := c4_unknown_opcode_no_state_change (fun _ _ _ _ => ExecRes.ub)
    ⟨[], []⟩ (fun _ => 0) ⟨['m'], [], 1, 0, [0xca]⟩ ⟨[], [], 0⟩ [] [] 0xca
    rfl (by decide) (by decide)
  exact ⟨h.1, h.2 5⟩

/-- The parameter prefix of the callee locals built by invokestatic: slot i
holds the (num_params - 1 - i)-th element of the pop-order argument list, so
the deepest popped value lands in slot 0 and the caller top of stack in slot
num_params - 1. -/
theorem invokestatic_locals_param (max_locals num_params : Nat)
    (garbage : Nat → Int) (args : List Int) (i : Nat)
    (hml : num_params ≤ max_locals) (hi : i < num_params) :
    (invokestatic_locals max_locals num_params garbage args)[i]? =
      some (args.getD (num_params - 1 - i) 0) := by
  have him : i < max_locals := lt_of_lt_of_le hi hml
  simp [invokestatic_locals, List.getElem?_map, List.getElem?_range him, hi]

/-- The counting loop on a bracket-free region counts its length. -/
theorem count_params_loop_no_bracket (l : List Char) (h : '[' ∉ l) :
    count_params_loop l = l.length := by
  induction l with
  | nil => rfl
  | cons c cs ih =>
    have hc : c ≠ '[' := fun e => h (by simp [e])
    have hcs : '[' ∉ cs := fun e => h (List.mem_cons_of_mem _ e)
    cases cs with
    | nil => simp [count_params_loop, hc]
    | cons x xs =>
      simp [count_params_loop, hc, ih hcs]
      omega

/-- get_number_of_parameters of the c5 callee descriptor counts np. -/
theorem c5_num_params (np k : Nat) :
    get_number_of_parameters (c5Callee np k) = np := by
  have h : ')' ∉ List.replicate np 'I' := by
    simp [List.mem_replicate]
  have hbr : '[' ∉ List.replicate np 'I' := by
    simp [List.mem_replicate]
  have hregion := get_params_region ['f'] (List.replicate np 'I') ['I'] 1 np
    [OFFSET_ILOAD + k, i_ireturn] h
  have : get_number_of_parameters (c5Callee np k) =
      count_params_loop (List.replicate np 'I') := by
    simpa [c5Callee, c5Desc] using hregion
  rw [this, count_params_loop_no_bracket _ hbr, List.length_replicate]

/-- Resolution of constant-pool index 1 in the c5 class finds the callee. -/
theorem c5_resolve (np k : Nat) :
    find_method_from_index 1 (c5Class np k) = some (c5Callee np k) := by
  simp [find_method_from_index, get_method_name_and_type, get_constant, c5Class,
    find_method, c5Callee]

/-- Running the c5 callee body iload_k; ireturn returns locals[k]. -/
theorem c5_callee_exec (np k fuel : Nat) (cls : class_file_t)
    (garbage : Nat → Int) (locals : List Int) (heap : List (List Int))
    (out : List Int) (v : Int) (hk : k < 4) (hloc : locals[k]? = some v) :
    executeLoop (fuel + 2) cls garbage (c5Callee np k) ⟨[], locals, 0⟩ heap out =
      ExecRes.done (some v) heap out := by
  interval_cases k <;>
    simp [executeLoop, stepInstr, stepOp, c5Callee, getLocal, hloc, pushC,
      contOf, popC]

/-- getD on a reversed list in terms of the original indices. -/
theorem reverse_getD (args : List Int) (k : Nat) (h : k < args.length) :
    args.reverse.getD k 0 = args.getD (args.length - 1 - k) 0 := by
  simp [List.getD_eq_getElem?_getD, List.getElem?_reverse h]

/-- Claim C5: invokestatic places the popped arguments into the callee locals
in source order: slot i of the callee receives the (num_params - 1 - i)-th
popped value, so the deepest popped value (the first argument pushed) lands in
locals[0] and the caller top of stack in locals[num_params - 1]; consequently
an invokestatic whose resolved callee body is iload_k; ireturn pushes the
(k+1)-th argument in source order back onto the caller stack. -/
theorem c5_invokestatic_parameter_order :
    (∀ (max_locals num_params : Nat) (garbage : Nat → Int) (args : List Int)
        (i : Nat),
        num_params ≤ max_locals → i < num_params →
        (invokestatic_locals max_locals num_params garbage args)[i]? =
          some (args.getD (num_params - 1 - i) 0)) ∧
    (∀ (np k fuel : Nat) (garbage : Nat → Int) (args rest : List Int)
        (callerLocals : List Int) (heap : List (List Int)) (out : List Int)
        (callerMS callerML : Nat) (callerName callerDesc : List Char),
        k < 4 → k < np → args.length = np → rest.length < callerMS →
        stepInstr
          (fun m2 l2 h2 o2 =>
            executeLoop (fuel + 2) (c5Class np k) garbage m2 ⟨[], l2, 0⟩ h2 o2)
          (c5Class np k) garbage
          ⟨callerName, callerDesc, callerMS, callerML, [i_invokestatic, 0, 1]⟩
          ⟨args ++ rest, callerLocals, 0⟩ heap out =
          StepRes.next ⟨args.reverse.getD k 0 :: rest, callerLocals, 3⟩ heap out) := by
  constructor
  · intro max_locals num_params garbage args i hml hi
    exact invokestatic_locals_param max_locals num_params garbage args i hml hi
  · intro np k fuel garbage args rest callerLocals heap out callerMS callerML
      callerName callerDesc hk4 hkn hlen hms
    have hnp : np ≤ (args ++ rest).length := by
      simp [List.length_append, hlen]
    have htake : (args ++ rest).take np = args := by
      rw [← hlen]
      exact List.take_left args rest
    have hdrop : (args ++ rest).drop np = rest := by
      rw [← hlen]
      exact List.drop_left args rest
    have hloc : (invokestatic_locals np np garbage args)[k]? =
        some (args.getD (np - 1 - k) 0) :=
      invokestatic_locals_param np np garbage args k le_rfl hkn
    have hexec := c5_callee_exec np k fuel (c5Class np k) garbage
      (invokestatic_locals np np garbage args) heap out
      (args.getD (np - 1 - k) 0) hk4 hloc
    have hrev : args.reverse.getD k 0 = args.getD (np - 1 - k) 0 := by
      rw [reverse_getD args k (by omega), hlen]
    have hml : (c5Callee np k).max_locals = np := rfl
    have hc1 : np ≤ args.length + rest.length := by omega
    have harith : args.length + rest.length - np = rest.length := by omega
    rw [hrev]
    simp only [stepInstr]
    simp [stepOp, c5_resolve, c5_num_params, hml, hc1, htake, hdrop, hexec,
      pushC, hms, harith]

/-- Witness for C5 at a concrete input: invoking the callee iload_1; ireturn
with two arguments pushed in source order 10 then 20 (caller stack [20, 10])
pushes the second source argument 20 back onto the caller stack. -/
theorem c5_witness :
    stepInstr
      (fun m2 l2 h2 o2 =>
        executeLoop 9 (c5Class 2 1) (fun _ => 0) m2 ⟨[], l2, 0⟩ h2 o2)
      (c5Class 2 1) (fun _ => 0)
      ⟨['m'], ['(', ')', 'V'], 1, 0, [i_invokestatic, 0, 1]⟩
      ⟨[20, 10], [], 0⟩ [] [] =
      StepRes.next ⟨[20], [], 3⟩ [] [] := by
  have h := c5_invokestatic_parameter_order.2 2 1 7 (fun _ => 0) [20, 10] [] []
    [] [] 1 0 ['m'] ['(', ')', 'V'] (by decide) (by decide) (by decide)
    (by decide)
  simpa using h

end TeenyJVM
